import Mathlib

/-!
Verification of the Note Store of the scrybin note-taking application
(`note_manager.py`, with the Save-As protocol from `app.py`).

The Python `dict` of notes (title → content, insertion-ordered, unique
keys) is embedded as an association list `List (String × String)`;
`notes[k] = v` is `dictInsert` (replace in place when the key is present,
append otherwise, exactly as a Python dict), `del notes[k]` is
`dictErase`, `notes.get(k, "")` is `dictLookup` followed by `Option.getD`.
The filesystem side of `load_notes` / `save_notes_to_file` is modelled by
a `DiskFile` value: the file is absent, present but not valid JSON, or a
valid JSON object of strings.  A Python exception escaping a function is
an `Except.error`; `PyExn.jsonDecodeError` is the `json.JSONDecodeError`
raised by `json.load` on malformed input (the code has no try/except
around it, so it propagates).
-/

namespace Scrybin

/-- Lookup in an association list, first binding wins (Python dict lookup). -/
def dictLookup : List (String × String) → String → Option String
  | [], _ => none
  | (k, v) :: rest, t => if k = t then some v else dictLookup rest t

/-- The keys of the association list, in order (Python `dict.keys()`). -/
def dictKeys (l : List (String × String)) : List String :=
  l.map Prod.fst

/-- Assignment `notes[k] = v` on a Python dict: replace the binding in
place when the key is present, append a new binding otherwise. -/
def dictInsert : List (String × String) → String → String → List (String × String)
  | [], k, v => [(k, v)]
  | (k', v') :: rest, k, v =>
    if k' = k then (k, v) :: rest else (k', v') :: dictInsert rest k v

/-- Deletion `del notes[k]` on a Python dict: drop the binding of `k` (a
dict holds at most one). -/
def dictErase : List (String × String) → String → List (String × String)
  | [], _ => []
  | (k', v') :: rest, k =>
    if k' = k then rest else (k', v') :: dictErase rest k

/-- State of `NoteManager.__init__`: the notes dict and `current_note`. -/
structure NoteManager where
  notes : List (String × String)
  current_note : Option String
deriving DecidableEq

/-- A fresh manager: empty dict, no current note. -/
def NoteManager.init : NoteManager := ⟨[], none⟩

/-- The persisted `notes.json` as the store can observe it: absent,
present but malformed JSON, or a valid object mapping titles to contents. -/
inductive DiskFile
  | absent
  | malformed
  | valid (data : List (String × String))
deriving DecidableEq

/-- Python exceptions that can escape the Note Store operations. -/
inductive PyExn
  | jsonDecodeError
deriving DecidableEq

/-- Method `NoteManager.load_notes`: if `notes.json` exists, `self.notes =
json.load(file)`; then `return self.notes`.  There is no try/except, so on
a malformed file `json.load` raises before the assignment: the manager is
returned unchanged together with the escaping exception.  The result is
the post-state of the manager and the outcome (returned dict, or the
exception that propagates). -/
def load_notes (f : DiskFile) (nm : NoteManager) :
    NoteManager × Except PyExn (List (String × String)) :=
  match f with
  | .absent => (nm, .ok nm.notes)
  | .malformed => (nm, .error .jsonDecodeError)
  | .valid d => ({ nm with notes := d }, .ok d)

/-- Method `NoteManager.save_notes_to_file`: `json.dump(self.notes, file)` — the
file becomes a valid JSON object holding exactly the notes dict. -/
def save_notes_to_file (nm : NoteManager) : DiskFile :=
  .valid nm.notes

/-- The suffixed title `f"{original_title} ({count})"`; `Nat.repr` is the
decimal rendering `str(count)`. -/
def sfx (orig : String) (count : Nat) : String :=
  orig ++ " (" ++ Nat.repr count ++ ")"

/-- The `while note_title in self.notes` loop of `add_new_note`, with an
explicit fuel parameter; `none` means the fuel ran out (shown below never
to happen for the fuel `add_new_note` supplies). -/
def addLoop (ks : List String) (orig : String) : String → Nat → Nat → Option String
  | _, _, 0 => none
  | note_title, count, fuel + 1 =>
    if note_title ∈ ks then addLoop ks orig (sfx orig count) (count + 1) fuel
    else some note_title

/-- Method `NoteManager.add_new_note`: probe `note_title`, then
`f"{original_title} (1)"`, `f"{original_title} (2)"`, … until a title not
in the dict is found, bind it to `""` and return it.  The fuel
`length + 1` is always sufficient (`addLoop_fuel_sufficient` below), so
the `none` fallback is unreachable. -/
def add_new_note (nm : NoteManager) (note_title : String) : NoteManager × String :=
  match addLoop (dictKeys nm.notes) note_title note_title 1 (nm.notes.length + 1) with
  | some final => ({ nm with notes := dictInsert nm.notes final "" }, final)
  | none => (nm, note_title)

/-- Method `NoteManager.delete_note`: `if note_title in self.notes: del
self.notes[note_title]`. -/
def delete_note (nm : NoteManager) (note_title : String) : NoteManager :=
  if note_title ∈ dictKeys nm.notes then
    { nm with notes := dictErase nm.notes note_title }
  else nm

/-- Method `NoteManager.get_note_content`: `self.notes.get(note_title, "")`. -/
def get_note_content (nm : NoteManager) (note_title : String) : String :=
  (dictLookup nm.notes note_title).getD ""

/-- Method `NoteManager.set_note_content`: `self.notes[note_title] = content`. -/
def set_note_content (nm : NoteManager) (note_title content : String) : NoteManager :=
  { nm with notes := dictInsert nm.notes note_title content }

/-- Method `NoteManager.get_note_titles`: `list(self.notes.keys())`. -/
def get_note_titles (nm : NoteManager) : List String :=
  dictKeys nm.notes

/-- The core of `App.save_note_as` (after the dialog): `add_new_note
(note_title)`, then `set_note_content(note_title, content)` with the
verbatim requested title, set `current_note = note_title`, then
`save_notes_to_file()`.  Returns the final manager and the written file. -/
def save_note_as (nm : NoteManager) (note_title content : String) :
    NoteManager × DiskFile :=
  let nm1 := (add_new_note nm note_title).1
  let nm2 := set_note_content nm1 note_title content
  let nm3 := { nm2 with current_note := some note_title }
  (nm3, save_notes_to_file nm3)

/-- The candidate title probed at step `n` by `add_new_note`: the
requested title itself at step 0, `sfx` at positive steps. -/
def candidate (orig : String) : Nat → String
  | 0 => orig
  | n + 1 => sfx orig (n + 1)

/-- Index form of the probing loop: the loop state `(note_title, count)`
always satisfies `note_title = candidate orig (count - 1)`, so the loop is
the search for the first free candidate index. -/
def probeIdx (ks : List String) (t : String) : Nat → Nat → Option Nat
  | _, 0 => none
  | j, fuel + 1 => if candidate t j ∈ ks then probeIdx ks t (j + 1) fuel else some j

/-- The operations of the Editor-to-Store interface. -/
inductive Op
  | load
  | titles
  | addNew (t : String)
  | content (t : String)
  | setContent (t c : String)
  | delete (t : String)
  | persist
deriving DecidableEq

/-- Observable return value of a store operation. -/
inductive Out
  | notesVal (d : List (String × String))
  | titleList (l : List String)
  | text (s : String)
  | title (t : String)
  | unit
deriving DecidableEq

/-- One store operation, run on the pair (in-memory manager, on-disk
file).  Each arm is the corresponding embedded method; the `DiskFile`
component records every filesystem interaction. -/
def run : Op → NoteManager × DiskFile → Except PyExn ((NoteManager × DiskFile) × Out)
  | .load, (nm, f) =>
    match load_notes f nm with
    | (nm', .ok d) => .ok ((nm', f), .notesVal d)
    | (_, .error e) => .error e
  | .titles, (nm, f) => .ok ((nm, f), .titleList (get_note_titles nm))
  | .addNew t, (nm, f) => .ok (((add_new_note nm t).1, f), .title (add_new_note nm t).2)
  | .content t, (nm, f) => .ok ((nm, f), .text (get_note_content nm t))
  | .setContent t c, (nm, f) => .ok ((set_note_content nm t c, f), .unit)
  | .delete t, (nm, f) => .ok ((delete_note nm t, f), .unit)
  | .persist, (nm, _) => .ok ((nm, save_notes_to_file nm), .unit)

/-- The run of an operation left the on-disk file as it was (trivially so
when the operation raised, since the raise aborts before any write). -/
def fileUnchanged (e : Except PyExn ((NoteManager × DiskFile) × Out)) (f : DiskFile) : Prop :=
  match e with
  | .ok (p, _) => p.2 = f
  | .error _ => True

/-! ### Injectivity of the decimal rendering `Nat.repr` (Python `str`) -/

lemma toDigitsCore_eq_digits (b : Nat) (hb : 2 ≤ b) :
    ∀ n fuel ds, 0 < n → n ≤ fuel →
      Nat.toDigitsCore b fuel n ds =
        ((Nat.digits b n).map Nat.digitChar).reverse ++ ds := by
  intro n
  induction n using Nat.strong_induction_on with
  | _ n ih =>
    intro fuel ds hn hfuel
    match fuel with
    | 0 => omega
    | f + 1 =>
      rw [Nat.digits_of_two_le_of_pos hb hn]
      simp only [Nat.toDigitsCore]
      by_cases hdiv : n / b = 0
      · rw [if_pos hdiv, hdiv]
        simp
      · rw [if_neg hdiv]
        have hd1 : 0 < n / b := Nat.pos_of_ne_zero hdiv
        have hd2 : n / b < n := Nat.div_lt_self hn (by omega)
        rw [ih (n / b) hd2 f (Nat.digitChar (n % b) :: ds) hd1 (by omega)]
        simp

lemma repr_pos_data {n : Nat} (hn : 0 < n) :
    (Nat.repr n).data = ((Nat.digits 10 n).map Nat.digitChar).reverse := by
  show ((Nat.toDigits 10 n).asString).data = _
  rw [Nat.toDigits, toDigitsCore_eq_digits 10 (by norm_num) n (n + 1) [] hn (by omega)]
  simp [List.asString]

lemma digitChar_inj {d e : Nat} (hd : d < 10) (he : e < 10)
    (h : Nat.digitChar d = Nat.digitChar e) : d = e := by
  interval_cases d <;> interval_cases e <;>
    first
    | rfl
    | exact absurd h (by decide)

lemma map_digitChar_inj : ∀ l1 l2 : List Nat,
    (∀ x ∈ l1, x < 10) → (∀ x ∈ l2, x < 10) →
    l1.map Nat.digitChar = l2.map Nat.digitChar → l1 = l2
  | [], [], _, _, _ => rfl
  | [], _ :: _, _, _, h => by simp at h
  | _ :: _, [], _, _, h => by simp at h
  | a :: l1, b :: l2, h1, h2, h => by
    simp only [List.map_cons, List.cons.injEq] at h
    have hab := digitChar_inj (h1 a (by simp)) (h2 b (by simp)) h.1
    subst hab
    rw [map_digitChar_inj l1 l2 (fun x hx => h1 x (by simp [hx]))
      (fun x hx => h2 x (by simp [hx])) h.2]

lemma map_digitChar_digits_ne {n : Nat} (hn : 0 < n) :
    (Nat.digits 10 n).map Nat.digitChar ≠ ['0'] := by
  intro hmap
  cases hL : Nat.digits 10 n with
  | nil => rw [hL] at hmap; simp at hmap
  | cons a l =>
    rw [hL] at hmap
    simp only [List.map_cons, List.cons.injEq, List.map_eq_nil_iff] at hmap
    obtain ⟨ha, hl⟩ := hmap
    subst hl
    have ha10 : a < 10 := Nat.digits_lt_base (by norm_num) (by rw [hL]; simp)
    have ha0 : a = 0 := digitChar_inj ha10 (by norm_num) ha
    subst ha0
    have hofd := Nat.ofDigits_digits 10 n
    rw [hL] at hofd
    simp [Nat.ofDigits] at hofd
    omega

lemma repr_data_inj {m n : Nat} (h : (Nat.repr m).data = (Nat.repr n).data) :
    m = n := by
  rcases Nat.eq_zero_or_pos m with hm | hm <;> rcases Nat.eq_zero_or_pos n with hn | hn
  · omega
  · exfalso
    subst hm
    rw [repr_pos_data hn] at h
    have h0 : (Nat.repr 0).data = ['0'] := rfl
    rw [h0] at h
    refine map_digitChar_digits_ne hn ?_
    have := congrArg List.reverse h
    simpa using this.symm
  · exfalso
    subst hn
    rw [repr_pos_data hm] at h
    have h0 : (Nat.repr 0).data = ['0'] := rfl
    rw [h0] at h
    refine map_digitChar_digits_ne hm ?_
    have := congrArg List.reverse h
    simpa using this
  · rw [repr_pos_data hm, repr_pos_data hn] at h
    have hrev := List.reverse_injective h
    have hdig := map_digitChar_inj _ _
      (fun x hx => Nat.digits_lt_base (by norm_num) hx)
      (fun x hx => Nat.digits_lt_base (by norm_num) hx) hrev
    exact Nat.digits_inj_iff.mp hdig

lemma repr_inj {m n : Nat} (h : Nat.repr m = Nat.repr n) : m = n :=
  repr_data_inj (congrArg String.data h)

/-! ### Injectivity and freshness of the probed candidate titles -/

lemma sfx_inj {t : String} {i j : Nat} (h : sfx t i = sfx t j) : i = j := by
  have hd := congrArg String.data h
  simp only [sfx, String.data_append, List.append_assoc] at hd
  exact repr_data_inj
    (List.append_cancel_right (List.append_cancel_left (List.append_cancel_left hd)))

lemma sfx_ne_orig (t : String) (j : Nat) : sfx t j ≠ t := by
  intro h
  have hlen := congrArg String.length h
  simp only [sfx, String.length_append] at hlen
  have h1 : (" (" : String).length = 2 := rfl
  have h2 : (")" : String).length = 1 := rfl
  rw [h1, h2] at hlen
  omega

lemma candidate_inj {t : String} : Function.Injective (candidate t) := by
  intro i j h
  match i, j with
  | 0, 0 => rfl
  | 0, j + 1 =>
    simp only [candidate] at h
    exact absurd h.symm (sfx_ne_orig t (j + 1))
  | i + 1, 0 =>
    simp only [candidate] at h
    exact absurd h (sfx_ne_orig t (i + 1))
  | i + 1, j + 1 =>
    simp only [candidate] at h
    exact sfx_inj h

lemma exists_free (ks : List String) (t : String) :
    ∃ n, n ≤ ks.length ∧ candidate t n ∉ ks := by
  by_contra hcon
  push_neg at hcon
  have hsub : (Finset.range (ks.length + 1)).image (candidate t) ⊆ ks.toFinset := by
    intro s hs
    simp only [Finset.mem_image, Finset.mem_range] at hs
    obtain ⟨n, hn, rfl⟩ := hs
    exact List.mem_toFinset.mpr (hcon n (by omega))
  have hcard := Finset.card_le_card hsub
  rw [Finset.card_image_of_injective _ candidate_inj, Finset.card_range] at hcard
  have := List.toFinset_card_le (l := ks)
  omega

/-! ### The probing loop finds the first free candidate -/

lemma addLoop_eq_probeIdx (ks : List String) (t : String) :
    ∀ fuel j, addLoop ks t (candidate t j) (j + 1) fuel =
      (probeIdx ks t j fuel).map (candidate t) := by
  intro fuel
  induction fuel with
  | zero => intro j; rfl
  | succ f ih =>
    intro j
    simp only [addLoop, probeIdx]
    by_cases hmem : candidate t j ∈ ks
    · rw [if_pos hmem, if_pos hmem]
      exact ih (j + 1)
    · rw [if_neg hmem, if_neg hmem]
      rfl

lemma probeIdx_some (ks : List String) (t : String) :
    ∀ fuel j n, j ≤ n → n < j + fuel → candidate t n ∉ ks →
      ∃ k, probeIdx ks t j fuel = some k ∧ j ≤ k ∧ k ≤ n ∧ candidate t k ∉ ks ∧
        ∀ m, j ≤ m → m < k → candidate t m ∈ ks := by
  intro fuel
  induction fuel with
  | zero => intro j n h1 h2 _; omega
  | succ f ih =>
    intro j n h1 h2 h3
    simp only [probeIdx]
    by_cases hmem : candidate t j ∈ ks
    · rw [if_pos hmem]
      have hjn : j ≠ n := fun e => h3 (e ▸ hmem)
      obtain ⟨k, hk, hk1, hk2, hk3, hk4⟩ := ih (j + 1) n (by omega) (by omega) h3
      refine ⟨k, hk, by omega, hk2, hk3, fun m hm1 hm2 => ?_⟩
      rcases Nat.eq_or_lt_of_le hm1 with he | hl
      · exact he ▸ hmem
      · exact hk4 m hl hm2
    · rw [if_neg hmem]
      exact ⟨j, rfl, Nat.le_refl j, h1, hmem,
        fun m hm1 hm2 => absurd (Nat.lt_of_le_of_lt hm1 hm2) (Nat.lt_irrefl j)⟩

/-- The fuel `add_new_note` passes to the loop is always sufficient: the
loop returns `some` and never reaches the fuel-exhausted fallback. -/
lemma addLoop_fuel_sufficient (nm : NoteManager) (t : String) :
    ∃ k, addLoop (dictKeys nm.notes) t t 1 (nm.notes.length + 1) =
      some (candidate t k) ∧ candidate t k ∉ dictKeys nm.notes ∧
      ∀ m, m < k → candidate t m ∈ dictKeys nm.notes := by
  have hlen : (dictKeys nm.notes).length = nm.notes.length := List.length_map _ _
  obtain ⟨n0, hn0, hfree⟩ := exists_free (dictKeys nm.notes) t
  obtain ⟨k, hk, _, _, hkfree, hleast⟩ :=
    probeIdx_some (dictKeys nm.notes) t (nm.notes.length + 1) 0 n0
      (Nat.zero_le _) (by omega) hfree
  have hbridge := addLoop_eq_probeIdx (dictKeys nm.notes) t (nm.notes.length + 1) 0
  rw [hk] at hbridge
  refine ⟨k, ?_, hkfree, fun m hm => hleast m (Nat.zero_le m) hm⟩
  simpa [candidate] using hbridge

/-- Characterization of `add_new_note`: it inserts (with empty content)
and returns the first candidate title not already a key. -/
lemma add_new_note_spec (nm : NoteManager) (t : String) :
    ∃ n, candidate t n ∉ dictKeys nm.notes ∧
      (∀ m, m < n → candidate t m ∈ dictKeys nm.notes) ∧
      add_new_note nm t =
        ({ nm with notes := dictInsert nm.notes (candidate t n) "" }, candidate t n) := by
  obtain ⟨k, hk, hkfree, hleast⟩ := addLoop_fuel_sufficient nm t
  exact ⟨k, hkfree, hleast, by simp only [add_new_note, hk]⟩

/-! ### Association-list (Python dict) lemmas -/

lemma dictLookup_insert_self : ∀ (l : List (String × String)) (k v : String),
    dictLookup (dictInsert l k v) k = some v
  | [], k, v => by simp [dictInsert, dictLookup]
  | (k', v') :: rest, k, v => by
    by_cases h : k' = k
    · subst h
      simp [dictInsert, dictLookup]
    · simp [dictInsert, dictLookup, h, dictLookup_insert_self rest k v]

lemma dictLookup_insert_ne : ∀ (l : List (String × String)) (k v s : String),
    s ≠ k → dictLookup (dictInsert l k v) s = dictLookup l s
  | [], k, v, s, h => by
    simp [dictInsert, dictLookup, Ne.symm h]
  | (k', v') :: rest, k, v, s, h => by
    by_cases hk : k' = k
    · subst hk
      simp [dictInsert, dictLookup, Ne.symm h]
    · by_cases hs : k' = s
      · subst hs
        simp [dictInsert, dictLookup, hk]
      · simp [dictInsert, dictLookup, hk, hs, dictLookup_insert_ne rest k v s h]

lemma dictLookup_eq_none_iff : ∀ (l : List (String × String)) (s : String),
    dictLookup l s = none ↔ s ∉ dictKeys l
  | [], s => by simp [dictLookup, dictKeys]
  | (k', v') :: rest, s => by
    by_cases h : k' = s
    · subst h
      simp [dictLookup, dictKeys]
    · simp [dictLookup, dictKeys, h, Ne.symm h, dictLookup_eq_none_iff rest s]

lemma mem_dictKeys_of_lookup {l : List (String × String)} {s v : String}
    (h : dictLookup l s = some v) : s ∈ dictKeys l := by
  by_contra hmem
  rw [(dictLookup_eq_none_iff l s).mpr hmem] at h
  exact Option.noConfusion h

lemma mem_dictKeys_insert_self (l : List (String × String)) (k v : String) :
    k ∈ dictKeys (dictInsert l k v) :=
  mem_dictKeys_of_lookup (dictLookup_insert_self l k v)

lemma dictKeys_insert_of_not_mem : ∀ (l : List (String × String)) (k v : String),
    k ∉ dictKeys l → dictKeys (dictInsert l k v) = dictKeys l ++ [k]
  | [], _, _, _ => rfl
  | (k', v') :: rest, k, v, h => by
    simp only [dictKeys, List.map_cons, List.mem_cons, not_or] at h
    have hne : ¬ k' = k := fun e => h.1 e.symm
    simp only [dictInsert, if_neg hne, dictKeys, List.map_cons, List.cons_append,
      List.cons.injEq, true_and]
    exact dictKeys_insert_of_not_mem rest k v h.2

lemma dictKeys_erase_not_mem : ∀ (l : List (String × String)) (k : String),
    (dictKeys l).Nodup → k ∉ dictKeys (dictErase l k)
  | [], k, _ => by simp [dictErase, dictKeys]
  | (k', v') :: rest, k, hnd => by
    simp only [dictKeys, List.map_cons, List.nodup_cons] at hnd
    by_cases h : k' = k
    · subst h
      simpa [dictErase, dictKeys] using hnd.1
    · simp only [dictErase, if_neg h, dictKeys, List.map_cons, List.mem_cons, not_or]
      exact ⟨fun e => h e.symm, dictKeys_erase_not_mem rest k hnd.2⟩

lemma dictLookup_erase_self (l : List (String × String)) (k : String)
    (hnd : (dictKeys l).Nodup) : dictLookup (dictErase l k) k = none :=
  (dictLookup_eq_none_iff _ _).mpr (dictKeys_erase_not_mem l k hnd)

lemma mem_dictKeys_insert_of_mem {l : List (String × String)} {s : String} (k v : String)
    (h : s ∈ dictKeys l) : s ∈ dictKeys (dictInsert l k v) := by
  by_cases hs : s = k
  · subst hs
    exact mem_dictKeys_insert_self l s v
  · by_contra hmem
    have hnone := (dictLookup_eq_none_iff (dictInsert l k v) s).mpr hmem
    rw [dictLookup_insert_ne l k v s hs] at hnone
    exact (dictLookup_eq_none_iff l s).mp hnone h

/-- When the requested title is free, the loop exits immediately: the
title is inserted as requested. -/
lemma add_new_note_of_not_mem (nm : NoteManager) (t : String)
    (h : t ∉ dictKeys nm.notes) :
    add_new_note nm t = ({ nm with notes := dictInsert nm.notes t "" }, t) := by
  obtain ⟨n, hfree, hleast, heq⟩ := add_new_note_spec nm t
  have hn0 : n = 0 := by
    by_contra hne
    exact h (by simpa [candidate] using hleast 0 (Nat.pos_of_ne_zero hne))
  subst hn0
  simpa [candidate] using heq

/-! ## Claim theorems -/

/-- C2: persisting a collection and loading the file back into a fresh
manager succeeds and yields the same titles and, for every title, the same
content. -/
theorem C2_persist_load_roundtrip (nm : NoteManager) :
    (load_notes (save_notes_to_file nm) NoteManager.init).2 = .ok nm.notes ∧
    get_note_titles (load_notes (save_notes_to_file nm) NoteManager.init).1 =
      get_note_titles nm ∧
    ∀ t, get_note_content (load_notes (save_notes_to_file nm) NoteManager.init).1 t =
      get_note_content nm t :=
  ⟨rfl, rfl, fun _ => rfl⟩

/-- C3 counterexample: on a malformed `notes.json`, `load_notes` does not
hand the caller a collection at all — the uncaught `json.JSONDecodeError`
from `json.load` escapes, with no `PersistenceError` classification in the
code. -/
theorem C3_counterexample :
    (load_notes DiskFile.malformed NoteManager.init).2 =
      .error PyExn.jsonDecodeError ∧
    ¬ ∃ d, (load_notes DiskFile.malformed NoteManager.init).2 = .ok d := by
  refine ⟨rfl, ?_⟩
  rintro ⟨d, hd⟩
  simp [load_notes] at hd

/-- C3 amended: `load_notes` reads the file when present and well-formed;
on a missing file it returns the in-memory collection unchanged (empty for
a fresh manager); on a malformed file the raw json decode exception
propagates to the caller — the in-memory collection is left unchanged, but
the failure is an unclassified escaping exception, not a distinct
`PersistenceError` reported to the caller. -/
theorem C3_load_behavior :
    (∀ nm d, load_notes (DiskFile.valid d) nm = ({ nm with notes := d }, .ok d)) ∧
    (∀ nm, load_notes DiskFile.absent nm = (nm, .ok nm.notes)) ∧
    (load_notes DiskFile.absent NoteManager.init).1.notes = [] ∧
    (∀ nm, load_notes DiskFile.malformed nm = (nm, .error PyExn.jsonDecodeError)) :=
  ⟨fun _ _ => rfl, fun _ => rfl, rfl, fun _ => rfl⟩

/-- C5: `set_note_content` is an upsert: afterwards the title is a key and
its content reads back as the value just written, whether or not the title
was present before; other titles are untouched. -/
theorem C5_setContent_upsert (nm : NoteManager) (t c : String) :
    t ∈ get_note_titles (set_note_content nm t c) ∧
    get_note_content (set_note_content nm t c) t = c ∧
    ∀ s, s ≠ t → get_note_content (set_note_content nm t c) s = get_note_content nm s := by
  refine ⟨mem_dictKeys_insert_self _ _ _, ?_, ?_⟩
  · simp [get_note_content, set_note_content, dictLookup_insert_self]
  · intro s hs
    simp [get_note_content, set_note_content, dictLookup_insert_ne _ _ _ _ hs]

/-- C5 witness at a concrete input: writing then reading back. -/
theorem C5_witness :
    "Ideas" ∈ get_note_titles (set_note_content NoteManager.init "Ideas" "buy milk") ∧
    get_note_content (set_note_content NoteManager.init "Ideas" "buy milk") "Ideas" =
      "buy milk" :=
  ⟨(C5_setContent_upsert NoteManager.init "Ideas" "buy milk").1,
   (C5_setContent_upsert NoteManager.init "Ideas" "buy milk").2.1⟩

/-- C6: `delete_note` removes a present key and is a no-op on an absent
one; afterwards the title is gone from the titles and its content lookup
yields the empty string.  Collections have unique keys (the Python dict
invariant), which the `Nodup` hypothesis records. -/
theorem C6_delete_spec (nm : NoteManager) (t : String)
    (hnd : (dictKeys nm.notes).Nodup) :
    t ∉ get_note_titles (delete_note nm t) ∧
    get_note_content (delete_note nm t) t = "" ∧
    (t ∉ dictKeys nm.notes → delete_note nm t = nm) := by
  refine ⟨?_, ?_, fun h => by simp [delete_note, h]⟩
  · unfold delete_note get_note_titles
    by_cases h : t ∈ dictKeys nm.notes
    · rw [if_pos h]
      exact dictKeys_erase_not_mem nm.notes t hnd
    · rw [if_neg h]
      exact h
  · unfold delete_note get_note_content
    by_cases h : t ∈ dictKeys nm.notes
    · rw [if_pos h]
      simp [dictLookup_erase_self nm.notes t hnd]
    · rw [if_neg h]
      simp [(dictLookup_eq_none_iff _ _).mpr h]

/-- C6 witness: deleting the only note of a concrete store removes it, and
deleting an absent title of that store is a no-op. -/
theorem C6_witness :
    "A" ∉ get_note_titles (delete_note ⟨[("A", "1")], none⟩ "A") ∧
    get_note_content (delete_note ⟨[("A", "1")], none⟩ "A") "A" = "" ∧
    delete_note ⟨[("A", "1")], none⟩ "Nonexistent" = ⟨[("A", "1")], none⟩ := by
  refine ⟨(C6_delete_spec ⟨[("A", "1")], none⟩ "A" (by decide)).1,
    (C6_delete_spec ⟨[("A", "1")], none⟩ "A" (by decide)).2.1,
    (C6_delete_spec ⟨[("A", "1")], none⟩ "Nonexistent" (by decide)).2.2 (by decide)⟩

/-- C7: looking up the content of an absent title yields the empty string
rather than failing. -/
theorem C7_content_absent (nm : NoteManager) (t : String)
    (h : t ∉ dictKeys nm.notes) : get_note_content nm t = "" := by
  simp [get_note_content, (dictLookup_eq_none_iff _ _).mpr h]

/-- C7 witness: an absent title of a concrete non-empty store reads as
empty. -/
theorem C7_witness : get_note_content ⟨[("Ideas", "x")], none⟩ "Missing" = "" :=
  C7_content_absent ⟨[("Ideas", "x")], none⟩ "Missing" (by decide)

/-- C9: on a finite collection the probing loop of `add_new_note` always
terminates: some candidate index up to the collection size is free, and
the loop (run with the fuel `add_new_note` supplies) returns a result
rather than exhausting its fuel. -/
theorem C9_probe_terminates (nm : NoteManager) (t : String) :
    ∃ n, n ≤ nm.notes.length ∧ candidate t n ∉ dictKeys nm.notes ∧
      (addLoop (dictKeys nm.notes) t t 1 (nm.notes.length + 1)).isSome := by
  obtain ⟨n, hn, hfree⟩ := exists_free (dictKeys nm.notes) t
  have hlen : (dictKeys nm.notes).length = nm.notes.length := List.length_map _ _
  obtain ⟨k, hk, -, -⟩ := addLoop_fuel_sufficient nm t
  exact ⟨n, by omega, hfree, by rw [hk]; rfl⟩

/-- C10: the store never rejects the empty string as a title: on a
collection without it, `add_new_note ""` returns `""` and inserts it (with
empty content), after which `""` appears among the titles; `set_note_content`
and `delete_note` likewise accept the empty title. -/
theorem C10_empty_title (nm : NoteManager) (h : "" ∉ dictKeys nm.notes) :
    (add_new_note nm "").2 = "" ∧
    (add_new_note nm "").1.notes = dictInsert nm.notes "" "" ∧
    "" ∈ get_note_titles (add_new_note nm "").1 ∧
    (∀ c, get_note_content (set_note_content nm "" c) "" = c) ∧
    delete_note nm "" = nm := by
  have heq := add_new_note_of_not_mem nm "" h
  refine ⟨by rw [heq], by rw [heq], ?_, ?_, by simp [delete_note, h]⟩
  · rw [heq]
    exact mem_dictKeys_insert_self _ _ _
  · intro c
    simp [get_note_content, set_note_content, dictLookup_insert_self]

/-- C10 witness: adding the empty title to a fresh store. -/
theorem C10_witness :
    (add_new_note NoteManager.init "").2 = "" ∧
    "" ∈ get_note_titles (add_new_note NoteManager.init "").1 := by
  refine ⟨(C10_empty_title NoteManager.init (by decide)).1,
    (C10_empty_title NoteManager.init (by decide)).2.2.1⟩

/-- C1: `add_new_note` returns the requested title and inserts it with
empty content when the title is free; on a collision it probes the
suffixed titles in increasing order and inserts and returns the first free
one; the inserted content is always empty; no binding already in the
collection is overwritten; and from a collection free of the requested
title and all its suffixed variants, three successive calls return the
title, its `(1)` variant and its `(2)` variant. -/
theorem C1_addNew_collision_probing (nm : NoteManager) (t : String) :
    (t ∉ dictKeys nm.notes →
      add_new_note nm t = ({ nm with notes := dictInsert nm.notes t "" }, t)) ∧
    (t ∈ dictKeys nm.notes →
      ∃ n, 1 ≤ n ∧ (add_new_note nm t).2 = sfx t n ∧
        sfx t n ∉ dictKeys nm.notes ∧
        (∀ m, 1 ≤ m → m < n → sfx t m ∈ dictKeys nm.notes) ∧
        (add_new_note nm t).1.notes = dictInsert nm.notes (sfx t n) "") ∧
    get_note_content (add_new_note nm t).1 (add_new_note nm t).2 = "" ∧
    (∀ s, s ∈ dictKeys nm.notes →
      dictLookup (add_new_note nm t).1.notes s = dictLookup nm.notes s) ∧
    ((∀ k, candidate t k ∉ dictKeys nm.notes) →
      (add_new_note nm t).2 = t ∧
      (add_new_note (add_new_note nm t).1 t).2 = sfx t 1 ∧
      (add_new_note (add_new_note (add_new_note nm t).1 t).1 t).2 = sfx t 2) := by
  obtain ⟨n, hfree, hleast, heq⟩ := add_new_note_spec nm t
  refine ⟨add_new_note_of_not_mem nm t, ?_, ?_, ?_, ?_⟩
  · intro hmem
    have hn : n ≠ 0 := by
      intro h0
      rw [h0] at hfree
      exact hfree hmem
    obtain ⟨m, rfl⟩ : ∃ m, n = m + 1 := ⟨n - 1, by omega⟩
    refine ⟨m + 1, by omega, by simp [heq, candidate], hfree, ?_,
      by simp [heq, candidate]⟩
    intro j hj1 hj2
    obtain ⟨j', rfl⟩ : ∃ i, j = i + 1 := ⟨j - 1, by omega⟩
    exact hleast (j' + 1) hj2
  · rw [heq]
    simp [get_note_content, dictLookup_insert_self]
  · intro s hs
    rw [heq]
    exact dictLookup_insert_ne _ _ _ _ (fun e => hfree (e ▸ hs))
  · intro hall
    have h1 := add_new_note_of_not_mem nm t (hall 0)
    set nm1 := (add_new_note nm t).1 with hnm1
    have hkeys1 : dictKeys nm1.notes = dictKeys nm.notes ++ [t] := by
      rw [hnm1, h1]
      exact dictKeys_insert_of_not_mem nm.notes t "" (hall 0)
    obtain ⟨n1, hfree1, hleast1, heq1⟩ := add_new_note_spec nm1 t
    have ht_in1 : candidate t 0 ∈ dictKeys nm1.notes := by
      rw [hkeys1]
      simp [candidate]
    have hs1_notin1 : candidate t 1 ∉ dictKeys nm1.notes := by
      rw [hkeys1]
      simp only [List.mem_append, List.mem_singleton, not_or]
      exact ⟨hall 1, by simpa [candidate] using sfx_ne_orig t 1⟩
    have hn1 : n1 = 1 := by
      rcases Nat.lt_trichotomy n1 1 with h | h | h
      · interval_cases n1
        exact absurd ht_in1 hfree1
      · exact h
      · exact absurd (hleast1 1 h) hs1_notin1
    subst hn1
    set nm2 := (add_new_note nm1 t).1 with hnm2
    have hkeys2 : dictKeys nm2.notes = (dictKeys nm.notes ++ [t]) ++ [sfx t 1] := by
      rw [hnm2, heq1]
      rw [show dictKeys (dictInsert nm1.notes (candidate t 1) "") =
            dictKeys nm1.notes ++ [candidate t 1] from
          dictKeys_insert_of_not_mem nm1.notes (candidate t 1) "" hs1_notin1, hkeys1]
      rfl
    obtain ⟨n2, hfree2, hleast2, heq2⟩ := add_new_note_spec nm2 t
    have ht_in2 : candidate t 0 ∈ dictKeys nm2.notes := by
      rw [hkeys2]
      simp [candidate]
    have hs1_in2 : candidate t 1 ∈ dictKeys nm2.notes := by
      rw [hkeys2]
      simp [candidate]
    have hs2_notin2 : candidate t 2 ∉ dictKeys nm2.notes := by
      rw [hkeys2]
      simp only [List.mem_append, List.mem_singleton, not_or]
      refine ⟨⟨hall 2, by simpa [candidate] using sfx_ne_orig t 2⟩, ?_⟩
      intro he
      have h21 : (2 : Nat) = 1 := sfx_inj (by simpa [candidate] using he)
      omega
    have hn2 : n2 = 2 := by
      rcases Nat.lt_trichotomy n2 2 with h | h | h
      · interval_cases n2
        · exact absurd ht_in2 hfree2
        · exact absurd hs1_in2 hfree2
      · exact h
      · exact absurd (hleast2 2 h) hs2_notin2
    subst hn2
    refine ⟨by rw [h1], by simp [heq1, candidate], by simp [heq2, candidate]⟩

/-- C1 witness: three successive adds of the same title on a fresh store
return the title, then its first and second suffixed variants. -/
theorem C1_witness :
    (add_new_note NoteManager.init "Note").2 = "Note" ∧
    (add_new_note (add_new_note NoteManager.init "Note").1 "Note").2 = "Note (1)" ∧
    (add_new_note (add_new_note (add_new_note NoteManager.init "Note").1 "Note").1
      "Note").2 = "Note (2)" := by
  have h := (C1_addNew_collision_probing NoteManager.init "Note").2.2.2.2
    (fun k => List.not_mem_nil _)
  refine ⟨h.1, ?_, ?_⟩
  · rw [h.2.1]
    decide
  · rw [h.2.2]
    decide

/-- C4: Save As with an already-used title. `save_note_as` runs
`add_new_note` (which diverts to a fresh suffixed title), then
`set_note_content` with the requested title verbatim, then persists: the
existing note under the requested title is overwritten with the buffer
text while the freshly created suffixed note keeps empty content, and the
UI focus (`current_note`) tracks the verbatim title. -/
theorem C4_save_as_verbatim_title (nm : NoteManager) (t c : String)
    (hmem : t ∈ dictKeys nm.notes) :
    (add_new_note nm t).2 ≠ t ∧
    (add_new_note nm t).2 ∉ dictKeys nm.notes ∧
    get_note_content (save_note_as nm t c).1 t = c ∧
    get_note_content (save_note_as nm t c).1 (add_new_note nm t).2 = "" ∧
    (add_new_note nm t).2 ∈ get_note_titles (save_note_as nm t c).1 ∧
    (save_note_as nm t c).1.current_note = some t ∧
    (save_note_as nm t c).2 = DiskFile.valid (save_note_as nm t c).1.notes := by
  obtain ⟨n, hfree, hleast, heq⟩ := add_new_note_spec nm t
  have hu : (add_new_note nm t).2 = candidate t n := by rw [heq]
  have hune : candidate t n ≠ t := fun e => hfree (by rw [e]; exact hmem)
  refine ⟨?_, ?_, ?_, ?_, ?_, rfl, rfl⟩
  · rw [hu]
    exact hune
  · rw [hu]
    exact hfree
  · simp only [save_note_as, set_note_content, get_note_content, heq]
    rw [dictLookup_insert_self]
    rfl
  · rw [hu]
    simp only [save_note_as, set_note_content, get_note_content, heq]
    rw [dictLookup_insert_ne _ _ _ _ hune, dictLookup_insert_self]
    rfl
  · rw [hu]
    simp only [save_note_as, set_note_content, get_note_titles, heq]
    exact mem_dictKeys_insert_of_mem t c (mem_dictKeys_insert_self _ _ _)

/-- C4 witness: Save As of buffer text `"y"` under the taken title
`"Ideas"` on the store holding `Ideas ↦ x` overwrites the existing note
and leaves the freshly created suffixed note empty. -/
theorem C4_witness :
    get_note_content (save_note_as ⟨[("Ideas", "x")], none⟩ "Ideas" "y").1 "Ideas" = "y" ∧
    get_note_content (save_note_as ⟨[("Ideas", "x")], none⟩ "Ideas" "y").1
      (add_new_note ⟨[("Ideas", "x")], none⟩ "Ideas").2 = "" :=
  ⟨(C4_save_as_verbatim_title ⟨[("Ideas", "x")], none⟩ "Ideas" "y" (by decide)).2.2.1,
   (C4_save_as_verbatim_title ⟨[("Ideas", "x")], none⟩ "Ideas" "y" (by decide)).2.2.2.1⟩

/-- C8 counterexample: `load` is not a pure in-memory operation — its
result depends on the on-disk file, i.e. it reads the filesystem: the very
same manager run through `load` on two different files gives different
results. -/
theorem C8_counterexample :
    run Op.load (NoteManager.init, DiskFile.valid [("A", "x")]) ≠
      run Op.load (NoteManager.init, DiskFile.absent) := by
  simp [run, load_notes, NoteManager.init]

/-- C8 amended: `persist` is the only operation that writes the
filesystem (every other operation leaves the file unchanged), and every
operation except `load` is independent of the file — but `load` reads it.
`persist` itself reads nothing and writes the serialized collection. -/
theorem C8_effects :
    (∀ op, op ≠ Op.persist → ∀ nm f, fileUnchanged (run op (nm, f)) f) ∧
    (∀ op, op ≠ Op.load → ∀ nm f f',
      (run op (nm, f)).map (fun x => (x.1.1, x.2)) =
        (run op (nm, f')).map (fun x => (x.1.1, x.2))) ∧
    (∀ nm f, run Op.persist (nm, f) = .ok ((nm, DiskFile.valid nm.notes), Out.unit)) := by
  refine ⟨?_, ?_, fun nm f => rfl⟩
  · intro op hop nm f
    cases op with
    | load => cases f <;> simp [run, load_notes, fileUnchanged]
    | titles => simp [run, fileUnchanged]
    | addNew t => simp [run, fileUnchanged]
    | content t => simp [run, fileUnchanged]
    | setContent t c => simp [run, fileUnchanged]
    | delete t => simp [run, fileUnchanged]
    | persist => exact absurd rfl hop
  · intro op hop nm f f'
    cases op with
    | load => exact absurd rfl hop
    | titles => rfl
    | addNew t => rfl
    | content t => rfl
    | setContent t c => rfl
    | delete t => rfl
    | persist => rfl

/-- C8 witness: a non-`load`, non-`persist` operation run against two
different on-disk files leaves the file alone and behaves identically. -/
theorem C8_witness :
    fileUnchanged (run Op.titles (NoteManager.init, DiskFile.malformed))
      DiskFile.malformed ∧
    (run Op.titles (NoteManager.init, DiskFile.malformed)).map
        (fun x => (x.1.1, x.2)) =
      (run Op.titles (NoteManager.init, DiskFile.absent)).map (fun x => (x.1.1, x.2)) :=
  ⟨C8_effects.1 Op.titles (by decide) NoteManager.init DiskFile.malformed,
   C8_effects.2.1 Op.titles (by decide) NoteManager.init DiskFile.malformed
     DiskFile.absent⟩

end Scrybin
